import Mathlib

/-!
Shallow embedding of the markdown-event renderer of `src/ui/src/markdown.rs`
(bananabit-cms). Events and tags mirror the `pulldown_cmark` vocabulary used by
the source; the functions mirror, line by line, `tag_matches`,
`collect_until_end_with_index`, `collect_text_until_end`, the span classifier
inside `highlight_code_to_lines`, and `render_markdown_events`. Rust machine
integers that can go negative (the `depth` counter) are embedded as `Int`;
byte lengths (`str::len`) as `String.utf8ByteSize`. The syntax-highlighting
oracle (syntect) is an explicit function parameter, per the spec's collaborator
model. String predicates are implemented over `List Char` so that every
definition evaluates inside the kernel.
-/

namespace BananabitCms

/-- `pulldown_cmark::HeadingLevel`. -/
inductive HeadingLevel where
  | h1 | h2 | h3 | h4 | h5 | h6
deriving DecidableEq, Repr

/-- `*level as u8` in the source: H1..H6 map to 1..6. -/
def HeadingLevel.toNat : HeadingLevel → Nat
  | .h1 => 1 | .h2 => 2 | .h3 => 3 | .h4 => 4 | .h5 => 5 | .h6 => 6

/-- `pulldown_cmark::Alignment` (table column alignments). -/
inductive Alignment where
  | none | left | center | right
deriving DecidableEq, Repr

/-- `pulldown_cmark::LinkType`. -/
inductive LinkType where
  | inline | reference | referenceUnknown | collapsed | collapsedUnknown
  | shortcut | shortcutUnknown | autolink | email
deriving DecidableEq, Repr

/-- `pulldown_cmark::CodeBlockKind`. -/
inductive CodeBlockKind where
  | indented
  | fenced (lang : String)
deriving DecidableEq, Repr

/-- `pulldown_cmark::Tag`. -/
inductive Tag where
  | Paragraph
  | Heading (level : HeadingLevel) (id : Option String) (classes : List String)
  | BlockQuote
  | CodeBlock (kind : CodeBlockKind)
  | List (firstItemNumber : Option Nat)
  | Item
  | FootnoteDefinition (id : String)
  | Table (alignments : List Alignment)
  | TableHead
  | TableRow
  | TableCell
  | Emphasis
  | Strong
  | Strikethrough
  | Link (linkType : LinkType) (url : String) (title : String)
  | Image (linkType : LinkType) (url : String) (title : String)
deriving DecidableEq, Repr

/-- `pulldown_cmark::Event`. -/
inductive Event where
  | Start (tag : Tag)
  | End (tag : Tag)
  | Text (s : String)
  | Code (s : String)
  | Html (s : String)
  | FootnoteReference (s : String)
  | SoftBreak
  | HardBreak
  | Rule
  | TaskListMarker (checked : Bool)
deriving DecidableEq, Repr

/-! ### String helpers (kernel-computable counterparts of the Rust `str` API) -/

/-- `str::starts_with` (string pattern). -/
def strStartsWith (s p : String) : Bool := p.data.isPrefixOf s.data

/-- `str::ends_with` (string pattern). -/
def strEndsWith (s p : String) : Bool := p.data.isSuffixOf s.data

/-- `str::contains` with a single-character pattern. -/
def strContainsChar (s : String) (c : Char) : Bool := s.data.contains c

/-- `s[n..]` for a string whose first `n` bytes are ASCII (the only use in the
source drops a 4-byte ASCII task marker). -/
def strDrop (n : Nat) (s : String) : String := String.mk (s.data.drop n)

/-- `text_str.trim().is_empty()`: every character is whitespace. -/
def isBlank (s : String) : Bool := s.data.all Char.isWhitespace

/-- A single apostrophe as a string (used by the JS heuristic's quote test). -/
def squote : String := String.singleton (Char.ofNat 39)

/-- Split a character list at newline characters (every occurrence). -/
def splitNl : List Char → List (List Char)
  | [] => [[]]
  | c :: cs =>
    match splitNl cs with
    | [] => [[]]
    | l :: ls => if c = '\n' then [] :: l :: ls else (c :: l) :: ls

/-- Remove one trailing carriage return, if present. -/
def stripCr (l : List Char) : List Char :=
  if l.getLast? = some '\r' then l.dropLast else l

/-- `str::lines`: split at `\n`, treating `\r\n` as a line ending too; a final
line ending produces no extra empty line. -/
def rustLines (s : String) : List String :=
  let parts := splitNl s.data
  let n := parts.length
  let stripped := parts.enum.map (fun p => if p.1 + 1 < n then stripCr p.2 else p.2)
  let strs := stripped.map (fun l => String.mk l)
  match strs.getLast? with
  | some t => if t = "" then strs.dropLast else strs
  | Option.none => strs

/-- `line.replace("\t", "    ")`. -/
def replaceTabs (s : String) : String :=
  String.mk (s.data.foldr
    (fun c acc => if c = '\t' then ' ' :: ' ' :: ' ' :: ' ' :: acc else c :: acc) [])

/-- `format!("{:>width$}", n, width = padding)`: left-pad with spaces. -/
def padLeft (w : Nat) (s : String) : String :=
  String.mk (List.replicate (w - s.length) ' ') ++ s

/-! ### `tag_matches` and the depth matcher (`collect_until_end_with_index`) -/

/-- `tag_matches` (markdown.rs:789-815): structural equality except that table
alignments are ignored. -/
def tag_matches : Tag → Tag → Bool
  | .Paragraph, .Paragraph => true
  | .Heading la ia ca, .Heading lb ib cb =>
      decide (la = lb) && decide (ia = ib) && decide (ca = cb)
  | .BlockQuote, .BlockQuote => true
  | .CodeBlock ka, .CodeBlock kb => decide (ka = kb)
  | .List na, .List nb => decide (na = nb)
  | .Item, .Item => true
  | .FootnoteDefinition a, .FootnoteDefinition b => decide (a = b)
  | .Table _, .Table _ => true
  | .TableHead, .TableHead => true
  | .TableRow, .TableRow => true
  | .TableCell, .TableCell => true
  | .Emphasis, .Emphasis => true
  | .Strong, .Strong => true
  | .Strikethrough, .Strikethrough => true
  | .Link ta ua ia, .Link tb ub ib =>
      decide (ta = tb) && decide (ua = ub) && decide (ia = ib)
  | .Image ta ua ia, .Image tb ub ib =>
      decide (ta = tb) && decide (ua = ub) && decide (ia = ib)
  | _, _ => false

/-- Is `e` a `Start` whose tag matches the probe? -/
def isMatchStart (probe : Tag) (e : Event) : Bool :=
  match e with
  | .Start t => tag_matches t probe
  | _ => false

/-- Is `e` an `End` whose tag matches the probe? -/
def isMatchEnd (probe : Tag) (e : Event) : Bool :=
  match e with
  | .End t => tag_matches t probe
  | _ => false

/-- Depth contribution of one event with respect to a probe tag. -/
def delta (probe : Tag) (e : Event) : Int :=
  if isMatchStart probe e then 1 else if isMatchEnd probe e then -1 else 0

/-- Net nesting depth of a list of events with respect to a probe tag. -/
def depthAt (probe : Tag) : List Event → Int
  | [] => 0
  | e :: l => delta probe e + depthAt probe l

/-- The scanning loop of `collect_until_end_with_index` (markdown.rs:756-786),
recursing on the suffix of the event slice while `i` tracks the absolute
index. The Rust `depth` is an `i32`, hence `Int` here. On an `End` that brings
the depth to zero the loop breaks and returns the index of that `End`. -/
def collectGo (startTag : Tag) : List Event → Nat → Int → List Event × Nat
  | [], i, _ => ([], i)
  | e :: rest, i, depth =>
    match e with
    | .Start t =>
      if tag_matches t startTag then
        let r := collectGo startTag rest (i + 1) (depth + 1)
        (if depth + 1 > 1 then e :: r.1 else r.1, r.2)
      else if 0 < depth then
        let r := collectGo startTag rest (i + 1) depth
        (e :: r.1, r.2)
      else
        collectGo startTag rest (i + 1) depth
    | .End t =>
      if tag_matches t startTag then
        if depth - 1 = 0 then ([], i)
        else
          let r := collectGo startTag rest (i + 1) (depth - 1)
          (e :: r.1, r.2)
      else if 0 < depth then
        let r := collectGo startTag rest (i + 1) depth
        (e :: r.1, r.2)
      else
        collectGo startTag rest (i + 1) depth
    | _ =>
      if 0 < depth then
        let r := collectGo startTag rest (i + 1) depth
        (e :: r.1, r.2)
      else
        collectGo startTag rest (i + 1) depth

/-- `collect_until_end_with_index` (markdown.rs:756-786). -/
def collect_until_end_with_index (events : List Event) (startIndex : Nat)
    (startTag : Tag) : List Event × Nat :=
  collectGo startTag (events.drop startIndex) startIndex 0

/-- The scanning loop of `collect_text_until_end` (markdown.rs:824-858); it
always begins at index 0 of the given slice. -/
def collectTextGo (startTag : Tag) : List Event → Int → String
  | [], _ => ""
  | e :: rest, depth =>
    match e with
    | .Start t =>
      if tag_matches t startTag then collectTextGo startTag rest (depth + 1)
      else collectTextGo startTag rest depth
    | .End t =>
      if tag_matches t startTag then
        if depth - 1 = 0 then "" else collectTextGo startTag rest (depth - 1)
      else collectTextGo startTag rest depth
    | .Text s =>
      if 0 < depth then s ++ collectTextGo startTag rest depth
      else collectTextGo startTag rest depth
    | .Code s =>
      if 0 < depth then s ++ collectTextGo startTag rest depth
      else collectTextGo startTag rest depth
    | .SoftBreak =>
      if 0 < depth then "\n" ++ collectTextGo startTag rest depth
      else collectTextGo startTag rest depth
    | .HardBreak =>
      if 0 < depth then "\n\n" ++ collectTextGo startTag rest depth
      else collectTextGo startTag rest depth
    | _ => collectTextGo startTag rest depth

/-- `collect_text_until_end` (markdown.rs:824-858): note the scan starts at
index 0 of the slice, not at the caller's cursor. -/
def collect_text_until_end (events : List Event) (startTag : Tag) : String :=
  collectTextGo startTag events 0

/-! ### Code-block metrics (markdown.rs:368-370) -/

/-- `code_content.lines().count()`. -/
def lineCount (s : String) : Nat := (rustLines s).length

/-- `code_content.lines().map(|line| line.len()).max().unwrap_or(0)` —
`str::len` is the byte length. -/
def maxLineLength (s : String) : Nat :=
  ((rustLines s).map (fun l => l.utf8ByteSize)).foldl max 0

/-- `needs_scroll = max_line_length > 80 || lines > 15` (markdown.rs:370). -/
def needsScroll (s : String) : Bool :=
  decide (maxLineLength s > 80) || decide (lineCount s > 15)

/-! ### Span classification (markdown.rs:156-252)

The per-span classification inside `highlight_code_to_lines`: italic style
first, then the exact Dracula palette (foreground RGB, alpha ignored), then a
language-specific heuristic on the literal span text. `char::is_numeric` and
`char::is_uppercase` are embedded as their ASCII counterparts (all inputs in
this development are ASCII). -/

/-- `text.chars().all(|c| c.is_numeric() || c == '.' || c == '_')`. -/
def allNumericDotUnderscore (s : String) : Bool :=
  s.data.all (fun c => c.isDigit || c = '.' || c = '_')

/-- `text.chars().next().map_or(false, |c| c.is_uppercase())`. -/
def firstCharUpper (s : String) : Bool :=
  match s.data with
  | [] => false
  | c :: _ => c.isUpper

/-- The `"js"` heuristic arm (markdown.rs:175-193). -/
def jsHeuristic (text : String) : String :=
  if text == "function" || text == "const" || text == "let" || text == "var"
      || text == "return" then "keyword"
  else if text == "true" || text == "false" then "bool"
  else if (strStartsWith text "\"" && strEndsWith text "\"")
      || (strStartsWith text squote && strEndsWith text squote) then "string"
  else if strStartsWith text "<" && strEndsWith text ">" then "type"
  else if allNumericDotUnderscore text then "number"
  else if strStartsWith text "//" then "comment"
  else if firstCharUpper text then "type"
  else "text"

/-- The `"html"` heuristic arm (markdown.rs:194-204). -/
def htmlHeuristic (text : String) : String :=
  if strStartsWith text "<" && strContainsChar text '>' then "keyword"
  else if strStartsWith text "\"" && strEndsWith text "\"" then "string"
  else if strStartsWith text "<!--" || strEndsWith text "-->" then "comment"
  else "text"

/-- The `"css"` heuristic arm (markdown.rs:205-219); `text.len()` is bytes. -/
def cssHeuristic (text : String) : String :=
  if strEndsWith text ":" then "keyword"
  else if strStartsWith text "." || strStartsWith text "#" then "type"
  else if strEndsWith text "px" || strEndsWith text "em" || strEndsWith text "rem"
      || strEndsWith text "%" then "number"
  else if strStartsWith text "#" && (text.utf8ByteSize = 4 || text.utf8ByteSize = 7)
      then "string"
  else if strStartsWith text "/*" || strEndsWith text "*/" then "comment"
  else "text"

/-- The generic (Rust-like) heuristic arm (markdown.rs:221-245). -/
def genericHeuristic (text : String) : String :=
  if strStartsWith text "#[derive" then "attribute"
  else if strStartsWith text "#[" || strStartsWith text "@" then "attribute"
  else if text == "true" || text == "false" then "bool"
  else if strStartsWith text "fn " || strStartsWith text "struct "
      || strStartsWith text "enum " then "keyword"
  else if text == "let" || text == "mut" || text == "const" || text == "return"
      then "keyword"
  else if allNumericDotUnderscore text then "number"
  else if strStartsWith text "\"" && strEndsWith text "\"" then "string"
  else if strStartsWith text "//" then "comment"
  else if firstCharUpper text then "type"
  else "text"

/-- Dispatch on `language_token` (markdown.rs:174, 221). -/
def languageHeuristic (languageToken text : String) : String :=
  if languageToken == "js" then jsHeuristic text
  else if languageToken == "html" then htmlHeuristic text
  else if languageToken == "css" then cssHeuristic text
  else genericHeuristic text

/-- The exact foreground-color palette (markdown.rs:163-171), alpha ignored. -/
def paletteClass (fg : Nat × Nat × Nat) : Option String :=
  if fg = (255, 121, 198) then some "keyword"
  else if fg = (80, 250, 123) then some "function"
  else if fg = (98, 114, 164) then some "comment"
  else if fg = (241, 250, 140) then some "string"
  else if fg = (189, 147, 249) then some "number"
  else if fg = (139, 233, 253) then some "type"
  else if fg = (248, 248, 242) then some "text"
  else none

/-- Does the foreground color hit the exact palette? -/
def paletteHit (fg : Nat × Nat × Nat) : Bool := (paletteClass fg).isSome

/-- The complete per-span classifier (markdown.rs:160-249): italic → `type`;
else exact palette; else the language-specific heuristic. -/
def classifySpan (languageToken : String) (italic : Bool) (fg : Nat × Nat × Nat)
    (text : String) : String :=
  if italic then "type"
  else
    match paletteClass fg with
    | some c => c
    | Option.none => languageHeuristic languageToken text

/-! ### Image URL resolution (markdown.rs:630-644) -/

/-- The url rewriting of the `Tag::Image` arm: with a base path configured,
non-absolute urls are joined onto the base (`base + url` when the url starts
with a slash, `base + "/" + url` otherwise). -/
def resolveImageUrl (base : Option String) (url : String) : String :=
  match base with
  | some b =>
    if !(strStartsWith url "http://") && !(strStartsWith url "https://") then
      if strStartsWith url "/" then b ++ url else b ++ "/" ++ url
    else url
  | Option.none => url

/-- Modelled from the spec's wording of image URL resolution (spec §4.4 and
§8): absolute urls pass through unchanged; relative urls with a leading slash
become `base + url` literally; other relative urls become `base + "/" + url`;
with no base configured every url passes through unchanged. -/
def resolveImageUrlSpec (base : Option String) (url : String) : String :=
  match base with
  | some b =>
    if strStartsWith url "http://" || strStartsWith url "https://" then url
    else if strStartsWith url "/" then b ++ url
    else b ++ "/" ++ url
  | Option.none => url

/-! ### The document tree and the renderer (markdown.rs:298-753) -/

/-- One node of the produced document tree: either literal text or an element
with a name, ordered attributes, and children (mirroring the rsx structure). -/
inductive Node where
  | text (s : String)
  | el (name : String) (attrs : List (String × String)) (children : List Node)
deriving Repr

/-- Flushing the pending plain-text buffer: `elements.push(rsx! span ...)`
when `current_text` is non-empty (markdown.rs:316-319 and 748-750). -/
def flushText (ct : String) (acc : List Node) : List Node :=
  if ct = "" then acc else acc ++ [Node.el "span" [] [Node.text ct]]

/-- The synthesized checkbox element (markdown.rs:515-520 and 734-741). -/
def checkboxNode (checked : Bool) : Node :=
  Node.el "div"
    [("class", "markdown-task-checkbox markdown-task-checkbox-"
        ++ (if checked then "checked" else "unchecked")),
     ("role", "checkbox"),
     ("aria_checked", if checked then "true" else "false"),
     ("tabindex", "0")] []

/-- The task list item element (markdown.rs:510-527): the checkbox and the
remaining content (wrapped in a span) are siblings inside a container div. -/
def taskItemNode (checked : Bool) (children : List Node) : Node :=
  Node.el "li" [("class", "markdown-task-list-item")]
    [Node.el "div" [("class", "markdown-task-checkbox-container")]
      [checkboxNode checked,
       Node.el "span" [("class", "markdown-task-text")] children]]

/-- Does a text begin with one of the three task markers (markdown.rs:444-446
and 484-486)? -/
def isTaskMarkerText (t : String) : Bool :=
  strStartsWith t "[ ] " || strStartsWith t "[x] " || strStartsWith t "[X] "

/-- One rendered line of a highlighted code block (markdown.rs:386-413). -/
def codeLineDivs (padding : Nat) (highlighted : List (List (String × String))) :
    List Node :=
  highlighted.enum.map (fun p =>
    Node.el "div" [("class", "code-line")]
      [Node.el "span"
          [("class", "line-number"), ("aria_hidden", "true"), ("tabindex", "-1")]
          [Node.text (padLeft padding (toString (p.1 + 1)))],
       Node.el "span" [("class", "line-content")]
         (p.2.map (fun seg =>
           Node.el "span" [("class", "syntax-" ++ seg.2)] [Node.text seg.1]))])

/-- `add_line_numbers_elements` (markdown.rs:268-295), used by the plain
(no-language) code-block branch. -/
def add_line_numbers_elements (code : String) : List Node :=
  let lines := rustLines code
  let padding := (toString lines.length).length
  lines.enum.map (fun p =>
    Node.el "div" [("class", "code-line")]
      [Node.el "span"
          [("class", "line-number"), ("aria_hidden", "true"), ("tabindex", "-1")]
          [Node.text (padLeft padding (toString (p.1 + 1)))],
       Node.el "span" [("class", "line-content")] [Node.text (replaceTabs p.2)]])

/-- The type of the syntax-highlighting oracle: `highlight_code_to_lines`
viewed as the external collaborator of spec §6 — from the code text and the
language it produces, per line, ordered (text, class) segments. -/
def HL := String → String → List (List (String × String))

/-- The main loop of `render_markdown_events` (markdown.rs:298-753). The loop
state is the cursor `i`, the pending text buffer `ct`, the `in_table_head`
flag, and the accumulated elements `acc`; `fuel` bounds the number of steps
(the Rust loop always terminates because the cursor advances and recursion is
on strictly shorter extracted slices). Recursive renders of inner slices start
a fresh invocation: cursor 0, empty buffer, `in_table_head = false`, no
accumulated elements — exactly as the Rust function's locals are initialized. -/
def renderGo (hl : HL) (base : Option String) :
    Nat → List Event → Nat → String → Bool → List Node → List Node
  | 0, _, _, ct, _, acc => flushText ct acc
  | Nat.succ fuel, es, i, ct, inHead, acc =>
    match es.get? i with
    | Option.none => flushText ct acc
    | some ev =>
      match ev with
      | .Start tag =>
        let acc1 := flushText ct acc
        match tag with
        | .Paragraph =>
          let r := collect_until_end_with_index es i .Paragraph
          renderGo hl base fuel es r.2 "" inHead
            (acc1 ++ [Node.el "p" [("class", "markdown-paragraph")]
              (renderGo hl base fuel r.1 0 "" false [])])
        | .Heading lvl _ _ =>
          let n := lvl.toNat
          let r := collect_until_end_with_index es i (.Heading lvl Option.none [])
          renderGo hl base fuel es r.2 "" inHead
            (acc1 ++ [Node.el ("h" ++ toString n)
              [("class", "markdown-heading-" ++ toString n)]
              (renderGo hl base fuel r.1 0 "" false [])])
        | .BlockQuote =>
          let r := collect_until_end_with_index es i .BlockQuote
          renderGo hl base fuel es r.2 "" inHead
            (acc1 ++ [Node.el "blockquote" [("class", "markdown-blockquote")]
              (renderGo hl base fuel r.1 0 "" false [])])
        | .CodeBlock kind =>
          let language :=
            match kind with
            | .fenced lang => if lang = "" then "text" else lang
            | .indented => "text"
          let r := collect_until_end_with_index es i (.CodeBlock kind)
          let codeContent := collect_text_until_end es (.CodeBlock kind)
          let scrollClass := if needsScroll codeContent then "needs-scroll" else "no-scroll"
          let node :=
            if language ≠ "" then
              let highlighted := hl codeContent language
              let padding := (toString highlighted.length).length
              Node.el "div"
                [("class", "markdown-code-block language-" ++ language ++ " " ++ scrollClass)]
                [Node.el "pre" []
                  [Node.el "code" [("class", "syntax-highlighted line-numbers")]
                    (codeLineDivs padding highlighted)]]
            else
              Node.el "div" [("class", "markdown-code-block " ++ scrollClass)]
                [Node.el "pre" []
                  [Node.el "code" [("class", "line-numbers")]
                    (add_line_numbers_elements codeContent)]]
          renderGo hl base fuel es r.2 "" inHead (acc1 ++ [node])
        | .List firstItemNumber =>
          let isTaskList :=
            if i + 2 < es.length then
              match es.get? (i + 1) with
              | some (.Start .Item) =>
                if i + 2 < es.length then
                  match es.get? (i + 2) with
                  | some (.Text t) => isTaskMarkerText t
                  | _ => false
                else false
              | _ => false
            else false
          let r := collect_until_end_with_index es i (.List firstItemNumber)
          let listClass :=
            if isTaskList then "markdown-list markdown-task-list" else "markdown-list"
          let node :=
            match firstItemNumber with
            | some number =>
              Node.el "ol" [("class", listClass), ("start", toString number)]
                (renderGo hl base fuel r.1 0 "" false [])
            | Option.none =>
              Node.el "ul" [("class", listClass)]
                (renderGo hl base fuel r.1 0 "" false [])
          renderGo hl base fuel es r.2 "" inHead (acc1 ++ [node])
        | .Item =>
          let isTaskItem :=
            match es.get? (i + 1) with
            | some (.Text t) => isTaskMarkerText t
            | _ => false
          let r := collect_until_end_with_index es i .Item
          if isTaskItem then
            match r.1 with
            | .Text t :: restContent =>
              let checked := strStartsWith t "[x] " || strStartsWith t "[X] "
              let remaining := strDrop 4 t
              renderGo hl base fuel es r.2 "" inHead
                (acc1 ++ [taskItemNode checked
                  (renderGo hl base fuel (.Text remaining :: restContent) 0 "" false [])])
            | _ => renderGo hl base fuel es r.2 "" inHead acc1
          else
            renderGo hl base fuel es r.2 "" inHead
              (acc1 ++ [Node.el "li" [("class", "markdown-list-item")]
                (renderGo hl base fuel r.1 0 "" false [])])
        | .FootnoteDefinition _ =>
          renderGo hl base fuel es (i + 1) "" inHead acc1
        | .Table aligns =>
          let r := collect_until_end_with_index es i (.Table aligns)
          renderGo hl base fuel es r.2 "" inHead
            (acc1 ++ [Node.el "table" [("class", "markdown-table")]
              (renderGo hl base fuel r.1 0 "" false [])])
        | .TableHead =>
          let r := collect_until_end_with_index es i .TableHead
          renderGo hl base fuel es r.2 "" false
            (acc1 ++ [Node.el "thead" []
              (renderGo hl base fuel r.1 0 "" false [])])
        | .TableRow =>
          let r := collect_until_end_with_index es i .TableRow
          renderGo hl base fuel es r.2 "" inHead
            (acc1 ++ [Node.el "tr" []
              (renderGo hl base fuel r.1 0 "" false [])])
        | .TableCell =>
          let r := collect_until_end_with_index es i .TableCell
          let cellContent := renderGo hl base fuel r.1 0 "" false []
          let node :=
            if inHead then Node.el "th" [("class", "markdown-table-header")] cellContent
            else Node.el "td" [("class", "markdown-table-cell")] cellContent
          renderGo hl base fuel es r.2 "" inHead (acc1 ++ [node])
        | .Emphasis =>
          let r := collect_until_end_with_index es i .Emphasis
          renderGo hl base fuel es r.2 "" inHead
            (acc1 ++ [Node.el "em" [("class", "markdown-emphasis")]
              (renderGo hl base fuel r.1 0 "" false [])])
        | .Strong =>
          let r := collect_until_end_with_index es i .Strong
          renderGo hl base fuel es r.2 "" inHead
            (acc1 ++ [Node.el "strong" [("class", "markdown-strong")]
              (renderGo hl base fuel r.1 0 "" false [])])
        | .Strikethrough =>
          let r := collect_until_end_with_index es i .Strikethrough
          renderGo hl base fuel es r.2 "" inHead
            (acc1 ++ [Node.el "del" [("class", "markdown-strikethrough")]
              (renderGo hl base fuel r.1 0 "" false [])])
        | .Link ty url title =>
          let external := strStartsWith url "http://" || strStartsWith url "https://"
          let linkClass :=
            if external then "markdown-link markdown-external-link" else "markdown-link"
          let r := collect_until_end_with_index es i (.Link ty url title)
          let node :=
            if external then
              Node.el "a"
                [("class", linkClass), ("href", url), ("title", title),
                 ("target", "_blank"), ("rel", "noopener noreferrer")]
                (renderGo hl base fuel r.1 0 "" false [])
            else
              Node.el "a" [("class", linkClass), ("href", url), ("title", title)]
                (renderGo hl base fuel r.1 0 "" false [])
          renderGo hl base fuel es r.2 "" inHead (acc1 ++ [node])
        | .Image ty url title =>
          let url2 := resolveImageUrl base url
          let altText := collect_text_until_end es (.Image ty url title)
          let node :=
            Node.el "figure" [("class", "markdown-image-container")]
              [Node.el "img"
                [("class", "markdown-image"), ("src", url2), ("alt", altText),
                 ("title", title), ("loading", "lazy")] [],
               Node.el "figcaption" [("class", "markdown-image-caption")]
                 [Node.text altText]]
          let r := collect_until_end_with_index es i (.Image ty url title)
          renderGo hl base fuel es r.2 "" inHead (acc1 ++ [node])
      | .End _ => renderGo hl base fuel es (i + 1) ct inHead acc
      | .Text s =>
        renderGo hl base fuel es (i + 1) (if isBlank s then ct else ct ++ s) inHead acc
      | .Code s =>
        renderGo hl base fuel es (i + 1) "" inHead
          (flushText ct acc
            ++ [Node.el "code" [("class", "markdown-inline-code")] [Node.text s]])
      | .Html s => renderGo hl base fuel es (i + 1) (ct ++ s) inHead acc
      | .FootnoteReference r =>
        renderGo hl base fuel es (i + 1) "" inHead
          (flushText ct acc
            ++ [Node.el "sup" [("class", "markdown-footnote-ref")]
                  [Node.text ("[" ++ r ++ "]")]])
      | .SoftBreak => renderGo hl base fuel es (i + 1) (ct.push ' ') inHead acc
      | .HardBreak =>
        renderGo hl base fuel es (i + 1) "" inHead
          (flushText ct acc ++ [Node.el "br" [] []])
      | .Rule =>
        renderGo hl base fuel es (i + 1) "" inHead
          (flushText ct acc ++ [Node.el "hr" [("class", "markdown-thematic-break")] []])
      | .TaskListMarker checked =>
        renderGo hl base fuel es (i + 1) "" inHead
          (flushText ct acc ++ [checkboxNode checked])

/-- `render_markdown_events` (markdown.rs:298-753): run the loop from a fresh
state with fuel amply covering the loop's total step count. -/
def render_markdown_events (hl : HL) (base : Option String)
    (events : List Event) : List Node :=
  renderGo hl base ((events.length + 1) * (events.length + 1)) events 0 "" false []

/-- A trivial highlighting oracle (no code blocks in the input). -/
def hl0 : HL := fun _ _ => []

/-- An injective highlighting oracle: one line, one segment carrying the code
text and the language verbatim; used to observe which code text a rendered
block received. -/
def hlInj : HL := fun code lang => [[(code, lang)]]

/-! ### Concrete inputs used by the claim theorems -/

/-- The flattened inner text of an event list, as `collect_text_until_end`
gathers it at depth 1: `Text` and `Code` contents verbatim, `SoftBreak` as a
newline, `HardBreak` as two newlines, everything else skipped. -/
def innerTextFlat : List Event → String
  | [] => ""
  | .Text s :: l => s ++ innerTextFlat l
  | .Code s :: l => s ++ innerTextFlat l
  | .SoftBreak :: l => "\n" ++ innerTextFlat l
  | .HardBreak :: l => "\n\n" ++ innerTextFlat l
  | _ :: l => innerTextFlat l

/-- The event sequence of end-to-end scenario C. -/
def scenarioC : List Event :=
  [Event.Start (.Table []), Event.Start .TableHead, Event.Start .TableRow,
   Event.Start .TableCell, Event.Text "Name", Event.End .TableCell,
   Event.End .TableRow, Event.End .TableHead, Event.Start .TableRow,
   Event.Start .TableCell, Event.Text "Alice", Event.End .TableCell,
   Event.End .TableRow, Event.End (.Table [])]

/-- Two fenced code blocks of identical kind. -/
def twoCodeBlocks : List Event :=
  [Event.Start (.CodeBlock (.fenced "rust")), Event.Text "A",
   Event.End (.CodeBlock (.fenced "rust")),
   Event.Start (.CodeBlock (.fenced "rust")), Event.Text "B",
   Event.End (.CodeBlock (.fenced "rust"))]

/-- Two images with identical link type, url, and title. -/
def twoImages : List Event :=
  [Event.Start (.Image .inline "u" "t"), Event.Text "A",
   Event.End (.Image .inline "u" "t"),
   Event.Start (.Image .inline "u" "t"), Event.Text "B",
   Event.End (.Image .inline "u" "t")]

/-- A list item whose first inner event is a paragraph whose text carries a
task marker (a loose list item). -/
def c5LooseItem : List Event :=
  [Event.Start (.List Option.none), Event.Start .Item, Event.Start .Paragraph,
   Event.Text "[x] a", Event.End .Paragraph, Event.End .Item,
   Event.End (.List Option.none)]

/-- A heading carrying an id, followed by a bare heading of the same level
later in the slice. -/
def c6Events : List Event :=
  [Event.Start (.Heading .h1 (some "a") []), Event.Text "x",
   Event.End (.Heading .h1 (some "a") []),
   Event.Start (.Heading .h1 Option.none []), Event.Text "y",
   Event.End (.Heading .h1 Option.none [])]

/-- Newline-joined concatenation (builds the concrete code blocks). -/
def joinNl : List String → String
  | [] => ""
  | [s] => s
  | s :: rest => s ++ "\n" ++ joinNl rest

/-- One 90-character line. -/
def line90 : String := String.mk (List.replicate 90 'a')

/-- Sixteen one-character lines. -/
def sixteenLines : String := joinNl (List.replicate 16 "a")

/-- Ten lines of 40 characters. -/
def tenLinesOf40 : String := joinNl (List.replicate 10 (String.mk (List.replicate 40 'b')))

example :
    render_markdown_events hl0 Option.none
      [Event.Start .Paragraph, Event.Start .Strong, Event.Text "hi",
       Event.End .Strong, Event.End .Paragraph]
    = [Node.el "p" [("class", "markdown-paragraph")]
        [Node.el "strong" [("class", "markdown-strong")]
          [Node.el "span" [] [Node.text "hi"]]]] := rfl

example :
    collect_until_end_with_index
      [Event.Start .Paragraph, Event.Text "hi", Event.End .Paragraph] 0 .Paragraph
    = ([Event.Text "hi"], 2) := rfl

/-! ### General lemmas about the embedded functions -/

lemma drop_eq_cons_of_get? {α : Type} :
    ∀ {l : List α} {i : Nat} {a : α}, l.get? i = some a →
      l.drop i = a :: l.drop (i + 1) := by
  intro l
  induction l with
  | nil => intro i a h; simp at h
  | cons x xs ih =>
    intro i a h
    cases i with
    | zero => simp_all
    | succ n =>
      simp only [List.get?] at h
      simpa using ih h

lemma length_lt_of_get? {α : Type} {l : List α} {i : Nat} {a : α}
    (h : l.get? i = some a) : i < l.length :=
  List.get?_eq_some.mp h |>.1

/-- Rendering out-of-range (cursor at or past the end) with an empty pending
buffer returns the accumulated elements unchanged. -/
lemma renderGo_past_end (hl : HL) (base : Option String) (f : Nat)
    (es : List Event) (i : Nat) (ih : Bool) (acc : List Node)
    (h : es.length ≤ i) :
    renderGo hl base f es i "" ih acc = acc := by
  cases f with
  | zero => simp [renderGo, flushText]
  | succ f =>
    have hnone : es.get? i = Option.none := List.get?_eq_none.mpr h
    simp only [renderGo, hnone]
    simp [flushText]

/-- Rendering the empty slice yields no elements, for any fuel. -/
lemma renderGo_nil (hl : HL) (base : Option String) (f : Nat) (ih : Bool) :
    renderGo hl base f [] 0 "" ih [] = [] :=
  renderGo_past_end hl base f [] 0 ih [] (by simp)

/-- If the scanned suffix contains no event matching the probe (neither a
`Start` nor an `End`), the depth stays 0, nothing is collected, and the loop
exhausts the suffix. -/
lemma collectGo_no_match (probe : Tag) :
    ∀ (l : List Event) (i : Nat),
      (∀ e ∈ l, isMatchStart probe e = false ∧ isMatchEnd probe e = false) →
      collectGo probe l i 0 = ([], i + l.length) := by
  intro l
  induction l with
  | nil => intro i _; simp [collectGo]
  | cons e rest ih =>
    intro i h
    have he := h e (List.mem_cons_self e rest)
    have hrest : ∀ x ∈ rest, isMatchStart probe x = false ∧ isMatchEnd probe x = false :=
      fun x hx => h x (List.mem_cons_of_mem e hx)
    have hr := ih (i + 1) hrest
    cases e with
    | Start t =>
      have hm : tag_matches t probe = false := by simpa [isMatchStart] using he.1
      simp only [collectGo, hm, Bool.false_eq_true, if_false]
      rw [if_neg (by omega : ¬ (0 : Int) < 0)]
      rw [hr]
      simp; omega
    | End t =>
      have hm : tag_matches t probe = false := by simpa [isMatchEnd] using he.2
      simp only [collectGo, hm, Bool.false_eq_true, if_false]
      rw [if_neg (by omega : ¬ (0 : Int) < 0)]
      rw [hr]
      simp; omega
    | Text s =>
      simp only [collectGo]
      rw [if_neg (by omega : ¬ (0 : Int) < 0)]
      rw [hr]; simp; omega
    | Code s =>
      simp only [collectGo]
      rw [if_neg (by omega : ¬ (0 : Int) < 0)]
      rw [hr]; simp; omega
    | Html s =>
      simp only [collectGo]
      rw [if_neg (by omega : ¬ (0 : Int) < 0)]
      rw [hr]; simp; omega
    | FootnoteReference s =>
      simp only [collectGo]
      rw [if_neg (by omega : ¬ (0 : Int) < 0)]
      rw [hr]; simp; omega
    | SoftBreak =>
      simp only [collectGo]
      rw [if_neg (by omega : ¬ (0 : Int) < 0)]
      rw [hr]; simp; omega
    | HardBreak =>
      simp only [collectGo]
      rw [if_neg (by omega : ¬ (0 : Int) < 0)]
      rw [hr]; simp; omega
    | Rule =>
      simp only [collectGo]
      rw [if_neg (by omega : ¬ (0 : Int) < 0)]
      rw [hr]; simp; omega
    | TaskListMarker c =>
      simp only [collectGo]
      rw [if_neg (by omega : ¬ (0 : Int) < 0)]
      rw [hr]; simp; omega

/-- If the scanned suffix contains no `End` matching the probe and the depth
is already positive, every event of the suffix is collected and the loop
exhausts it. -/
lemma collectGo_no_end (probe : Tag) :
    ∀ (l : List Event) (i : Nat) (d : Int), 0 < d →
      (∀ e ∈ l, isMatchEnd probe e = false) →
      collectGo probe l i d = (l, i + l.length) := by
  intro l
  induction l with
  | nil => intro i d _ _; simp [collectGo]
  | cons e rest ih =>
    intro i d hd h
    have he := h e (List.mem_cons_self e rest)
    have hrest : ∀ x ∈ rest, isMatchEnd probe x = false :=
      fun x hx => h x (List.mem_cons_of_mem e hx)
    cases e with
    | Start t =>
      cases hm : tag_matches t probe with
      | true =>
        have hr := ih (i + 1) (d + 1) (by omega) hrest
        simp only [collectGo, hm, if_true]
        rw [if_pos (by omega : d + 1 > 1)]
        rw [hr]; simp; omega
      | false =>
        have hr := ih (i + 1) d hd hrest
        simp only [collectGo, hm, Bool.false_eq_true, if_false]
        rw [if_pos hd, hr]; simp; omega
    | End t =>
      have hm : tag_matches t probe = false := by simpa [isMatchEnd] using he
      have hr := ih (i + 1) d hd hrest
      simp only [collectGo, hm, Bool.false_eq_true, if_false]
      rw [if_pos hd, hr]; simp; omega
    | Text s =>
      have hr := ih (i + 1) d hd hrest
      simp only [collectGo]
      rw [if_pos hd, hr]; simp; omega
    | Code s =>
      have hr := ih (i + 1) d hd hrest
      simp only [collectGo]
      rw [if_pos hd, hr]; simp; omega
    | Html s =>
      have hr := ih (i + 1) d hd hrest
      simp only [collectGo]
      rw [if_pos hd, hr]; simp; omega
    | FootnoteReference s =>
      have hr := ih (i + 1) d hd hrest
      simp only [collectGo]
      rw [if_pos hd, hr]; simp; omega
    | SoftBreak =>
      have hr := ih (i + 1) d hd hrest
      simp only [collectGo]
      rw [if_pos hd, hr]; simp; omega
    | HardBreak =>
      have hr := ih (i + 1) d hd hrest
      simp only [collectGo]
      rw [if_pos hd, hr]; simp; omega
    | Rule =>
      have hr := ih (i + 1) d hd hrest
      simp only [collectGo]
      rw [if_pos hd, hr]; simp; omega
    | TaskListMarker c =>
      have hr := ih (i + 1) d hd hrest
      simp only [collectGo]
      rw [if_pos hd, hr]; simp; omega

lemma delta_start_match {t probe : Tag} (h : tag_matches t probe = true) :
    delta probe (.Start t) = 1 := by
  simp [delta, isMatchStart, h]

lemma delta_end_match {t probe : Tag} (h : tag_matches t probe = true) :
    delta probe (.End t) = -1 := by
  simp [delta, isMatchStart, isMatchEnd, h]

lemma delta_zero {probe : Tag} {e : Event}
    (h1 : isMatchStart probe e = false) (h2 : isMatchEnd probe e = false) :
    delta probe e = 0 := by
  simp [delta, h1, h2]

/-- Lifting the success description of the `collectGo` scan over one consumed
event whose depth contribution takes the counter from `d` to `d'`. -/
lemma close_lift (probe : Tag) (e : Event) (rest : List Event) (i : Nat) (d d' : Int)
    (hd : 0 < d)
    (hdelta : delta probe e = d' - d)
    (hsnd : (collectGo probe (e :: rest) i d).2 = (collectGo probe rest (i + 1) d').2)
    (H : ∃ m, m < rest.length ∧ (collectGo probe rest (i + 1) d').2 = (i + 1) + m
          ∧ (rest.get? m).any (isMatchEnd probe) = true
          ∧ d' + depthAt probe (rest.take (m + 1)) = 0
          ∧ ∀ k, k ≤ m → 0 < d' + depthAt probe (rest.take k)) :
    ∃ m, m < (e :: rest).length ∧ (collectGo probe (e :: rest) i d).2 = i + m
      ∧ ((e :: rest).get? m).any (isMatchEnd probe) = true
      ∧ d + depthAt probe ((e :: rest).take (m + 1)) = 0
      ∧ ∀ k, k ≤ m → 0 < d + depthAt probe ((e :: rest).take k) := by
  obtain ⟨m, h1, h2, h3, h4, h5⟩ := H
  refine ⟨m + 1, by simpa using Nat.succ_lt_succ h1, by rw [hsnd, h2]; omega, by simpa using h3,
    ?_, ?_⟩
  · have : depthAt probe ((e :: rest).take (m + 2))
        = delta probe e + depthAt probe (rest.take (m + 1)) := by
      simp [List.take, depthAt]
    rw [this, hdelta]; omega
  · intro k hk
    cases k with
    | zero => simpa [depthAt] using hd
    | succ k' =>
      have hk' : k' ≤ m := Nat.le_of_succ_le_succ hk
      have := h5 k' hk'
      have heq : depthAt probe ((e :: rest).take (k' + 1))
          = delta probe e + depthAt probe (rest.take k') := by
        simp [List.take, depthAt]
      rw [heq, hdelta]; omega

/-- Success description of the `collectGo` scan: starting with a positive
depth, if some prefix of the remaining events brings the depth counter to
zero, the scan stops at the first index `m` where that happens; the event
there is an `End` matching the probe, the returned index is the absolute
position of that `End`, and the depth counter is strictly positive at every
point before it (in particular it never goes below zero). -/
lemma collectGo_close (probe : Tag) :
    ∀ (l : List Event) (i : Nat) (d : Int), 0 < d →
      (∃ k, k ≤ l.length ∧ d + depthAt probe (l.take k) = 0) →
      ∃ m, m < l.length ∧ (collectGo probe l i d).2 = i + m
        ∧ (l.get? m).any (isMatchEnd probe) = true
        ∧ d + depthAt probe (l.take (m + 1)) = 0
        ∧ ∀ k, k ≤ m → 0 < d + depthAt probe (l.take k) := by
  intro l
  induction l with
  | nil =>
    intro i d hd hcl
    obtain ⟨k, hk, h0⟩ := hcl
    simp at hk
    subst hk
    simp [depthAt] at h0
    omega
  | cons e rest ih =>
    intro i d hd hcl
    obtain ⟨k, hk, h0⟩ := hcl
    cases k with
    | zero => simp [depthAt] at h0; omega
    | succ k' =>
      have hk' : k' ≤ rest.length := by simpa using hk
      have h0' : d + (delta probe e + depthAt probe (rest.take k')) = 0 := by
        simpa [List.take, depthAt] using h0
      cases e with
      | Start t =>
        cases hm : tag_matches t probe with
        | true =>
          have hdel : delta probe (.Start t) = 1 := delta_start_match hm
          rw [hdel] at h0'
          refine close_lift probe _ rest i d (d + 1) hd (by rw [hdel]; ring) ?_
            (ih (i + 1) (d + 1) (by omega) ⟨k', hk', by omega⟩)
          simp only [collectGo, hm, if_true]
        | false =>
          have hs : isMatchStart probe (.Start t) = false := by simp [isMatchStart, hm]
          have hdel : delta probe (.Start t) = 0 :=
            delta_zero hs (by simp [isMatchEnd])
          rw [hdel] at h0'
          refine close_lift probe _ rest i d d hd (by rw [hdel]; ring) ?_
            (ih (i + 1) d hd ⟨k', hk', by omega⟩)
          simp only [collectGo, hm, Bool.false_eq_true, if_false, if_pos hd]
      | End t =>
        cases hm : tag_matches t probe with
        | true =>
          have hdel : delta probe (.End t) = -1 := delta_end_match hm
          rw [hdel] at h0'
          by_cases hd1 : d - 1 = 0
          · refine ⟨0, by simp, ?_, ?_, ?_, ?_⟩
            · simp only [collectGo, hm, if_true, if_pos hd1]
              omega
            · simp [isMatchEnd, hm]
            · simp [List.take, depthAt, hdel]; omega
            · intro k hk0
              have : k = 0 := by omega
              subst this
              simpa [depthAt] using hd
          · refine close_lift probe _ rest i d (d - 1) hd (by rw [hdel]; ring) ?_
              (ih (i + 1) (d - 1) (by omega) ⟨k', hk', by omega⟩)
            simp only [collectGo, hm, if_true, if_neg hd1]
        | false =>
          have hdel : delta probe (.End t) = 0 :=
            delta_zero (by simp [isMatchStart]) (by simp [isMatchEnd, hm])
          rw [hdel] at h0'
          refine close_lift probe _ rest i d d hd (by rw [hdel]; ring) ?_
            (ih (i + 1) d hd ⟨k', hk', by omega⟩)
          simp only [collectGo, hm, Bool.false_eq_true, if_false, if_pos hd]
      | Text s =>
        have hdel : delta probe (.Text s) = 0 :=
          delta_zero (by simp [isMatchStart]) (by simp [isMatchEnd])
        rw [hdel] at h0'
        refine close_lift probe _ rest i d d hd (by rw [hdel]; ring) ?_
          (ih (i + 1) d hd ⟨k', hk', by omega⟩)
        simp only [collectGo, if_pos hd]
      | Code s =>
        have hdel : delta probe (.Code s) = 0 :=
          delta_zero (by simp [isMatchStart]) (by simp [isMatchEnd])
        rw [hdel] at h0'
        refine close_lift probe _ rest i d d hd (by rw [hdel]; ring) ?_
          (ih (i + 1) d hd ⟨k', hk', by omega⟩)
        simp only [collectGo, if_pos hd]
      | Html s =>
        have hdel : delta probe (.Html s) = 0 :=
          delta_zero (by simp [isMatchStart]) (by simp [isMatchEnd])
        rw [hdel] at h0'
        refine close_lift probe _ rest i d d hd (by rw [hdel]; ring) ?_
          (ih (i + 1) d hd ⟨k', hk', by omega⟩)
        simp only [collectGo, if_pos hd]
      | FootnoteReference s =>
        have hdel : delta probe (.FootnoteReference s) = 0 :=
          delta_zero (by simp [isMatchStart]) (by simp [isMatchEnd])
        rw [hdel] at h0'
        refine close_lift probe _ rest i d d hd (by rw [hdel]; ring) ?_
          (ih (i + 1) d hd ⟨k', hk', by omega⟩)
        simp only [collectGo, if_pos hd]
      | SoftBreak =>
        have hdel : delta probe .SoftBreak = 0 :=
          delta_zero (by simp [isMatchStart]) (by simp [isMatchEnd])
        rw [hdel] at h0'
        refine close_lift probe _ rest i d d hd (by rw [hdel]; ring) ?_
          (ih (i + 1) d hd ⟨k', hk', by omega⟩)
        simp only [collectGo, if_pos hd]
      | HardBreak =>
        have hdel : delta probe .HardBreak = 0 :=
          delta_zero (by simp [isMatchStart]) (by simp [isMatchEnd])
        rw [hdel] at h0'
        refine close_lift probe _ rest i d d hd (by rw [hdel]; ring) ?_
          (ih (i + 1) d hd ⟨k', hk', by omega⟩)
        simp only [collectGo, if_pos hd]
      | Rule =>
        have hdel : delta probe .Rule = 0 :=
          delta_zero (by simp [isMatchStart]) (by simp [isMatchEnd])
        rw [hdel] at h0'
        refine close_lift probe _ rest i d d hd (by rw [hdel]; ring) ?_
          (ih (i + 1) d hd ⟨k', hk', by omega⟩)
        simp only [collectGo, if_pos hd]
      | TaskListMarker c =>
        have hdel : delta probe (.TaskListMarker c) = 0 :=
          delta_zero (by simp [isMatchStart]) (by simp [isMatchEnd])
        rw [hdel] at h0'
        refine close_lift probe _ rest i d d hd (by rw [hdel]; ring) ?_
          (ih (i + 1) d hd ⟨k', hk', by omega⟩)
        simp only [collectGo, if_pos hd]

/-! ### Claim C2 (depth matcher end index) -/

/-- C2 counterexample: on the well-formed sequence `[Start(Paragraph),
End(Paragraph)]` the matching `End` sits at position 1, so "one past" would be
2 — but the scan breaks AT the matching `End` and returns index 1. -/
theorem c2_one_past_counterexample :
    collect_until_end_with_index
      [Event.Start .Paragraph, Event.End .Paragraph] 0 .Paragraph = ([], 1)
    ∧ (collect_until_end_with_index
        [Event.Start .Paragraph, Event.End .Paragraph] 0 .Paragraph).2 ≠ 1 + 1 :=
  ⟨rfl, by decide⟩

/-- C2 amended: for a span that closes (as every span of a well-formed
sequence does), the scan starting at a matching `Start` returns the position
of the correctly nested matching `End` itself — not one past it — and the
depth counter never goes below zero at any point of the scan. -/
theorem c2_end_index_is_position_of_matching_end
    (es : List Event) (s : Nat) (t0 probe : Tag)
    (hs : es.get? s = some (.Start t0))
    (hm : tag_matches t0 probe = true)
    (hcl : ∃ k, k ≤ (es.drop (s + 1)).length
            ∧ 1 + depthAt probe ((es.drop (s + 1)).take k) = 0) :
    ∃ j, (collect_until_end_with_index es s probe).2 = j
      ∧ s < j ∧ j < es.length
      ∧ (es.get? j).any (isMatchEnd probe) = true
      ∧ 1 + depthAt probe ((es.drop (s + 1)).take (j - s)) = 0
      ∧ ∀ k, k ≤ j - s → 0 ≤ 1 + depthAt probe ((es.drop (s + 1)).take k) := by
  have hslen : s < es.length := length_lt_of_get? hs
  have hdrop : es.drop s = .Start t0 :: es.drop (s + 1) := drop_eq_cons_of_get? hs
  have hunfold : (collect_until_end_with_index es s probe).2
      = (collectGo probe (es.drop (s + 1)) (s + 1) 1).2 := by
    rw [collect_until_end_with_index, hdrop]
    simp only [collectGo, hm, if_true]
    norm_num
  obtain ⟨m, hmlen, hsnd, hget, hdep, hpos⟩ :=
    collectGo_close probe (es.drop (s + 1)) (s + 1) 1 (by omega) hcl
  have hdlen : (es.drop (s + 1)).length = es.length - (s + 1) := List.length_drop _ _
  refine ⟨s + 1 + m, by rw [hunfold, hsnd], by omega, by omega, ?_, ?_, ?_⟩
  · rw [show s + 1 + m = s + 1 + m from rfl]
    rw [← List.get?_drop es (s + 1) m]
    exact hget
  · have : s + 1 + m - s = m + 1 := by omega
    rw [this]
    exact hdep
  · intro k hk
    have : s + 1 + m - s = m + 1 := by omega
    rw [this] at hk
    rcases Nat.lt_or_ge k (m + 1) with hlt | hge
    · have := hpos k (by omega)
      omega
    · have : k = m + 1 := by omega
      rw [this]
      omega

/-- C2 witness: the amended theorem applied to a concrete three-event
paragraph span. -/
theorem c2_end_index_witness :
    ∃ j, (collect_until_end_with_index
        [Event.Start .Paragraph, Event.Text "a", Event.End .Paragraph] 0 .Paragraph).2 = j
      ∧ 0 < j ∧ j < 3
      ∧ (([Event.Start .Paragraph, Event.Text "a", Event.End .Paragraph].get? j).any
          (isMatchEnd .Paragraph)) = true
      ∧ 1 + depthAt .Paragraph ([Event.Text "a", Event.End .Paragraph].take (j - 0)) = 0
      ∧ ∀ k, k ≤ j - 0 →
          0 ≤ 1 + depthAt .Paragraph ([Event.Text "a", Event.End .Paragraph].take k) :=
  c2_end_index_is_position_of_matching_end
    [Event.Start .Paragraph, Event.Text "a", Event.End .Paragraph] 0 .Paragraph .Paragraph
    rfl rfl ⟨2, by decide, by decide⟩

/-! ### Claim C4 (unterminated input) -/

/-- C4 counterexample: on the malformed sequence `[Start(Paragraph),
Text "a"]` (no matching `End`) the scan neither panics nor produces an error
value — its return type has no error channel — and it silently returns the
partially collected content together with the exhausted index. -/
theorem c4_no_error_counterexample :
    collect_until_end_with_index
      [Event.Start .Paragraph, Event.Text "a"] 0 .Paragraph
    = ([Event.Text "a"], 2) := rfl

/-- C4 amended: when the opening tag at the start index has no matching `End`
anywhere after it, the scan exhausts the sequence and silently returns the
partially collected content — every event after the opening tag — with an end
index equal to the sequence length; no panic and no error value occur. -/
theorem c4_unterminated_returns_partial_silently
    (es : List Event) (s : Nat) (t0 probe : Tag)
    (hs : es.get? s = some (.Start t0))
    (hm : tag_matches t0 probe = true)
    (hne : ∀ e ∈ es.drop (s + 1), isMatchEnd probe e = false) :
    collect_until_end_with_index es s probe = (es.drop (s + 1), es.length) := by
  have hslen : s < es.length := length_lt_of_get? hs
  have hdrop : es.drop s = .Start t0 :: es.drop (s + 1) := drop_eq_cons_of_get? hs
  have hdlen : (es.drop (s + 1)).length = es.length - (s + 1) := List.length_drop _ _
  rw [collect_until_end_with_index, hdrop]
  simp only [collectGo, hm, if_true]
  rw [if_neg (by omega : ¬ ((0 : Int) + 1 > 1))]
  rw [collectGo_no_end probe (es.drop (s + 1)) (s + 1) (0 + 1) (by omega) hne]
  simp
  omega

/-- C4 witness: the amended theorem applied to a concrete unterminated
paragraph followed by an unrelated opening tag. -/
theorem c4_unterminated_witness :
    collect_until_end_with_index
      [Event.Start .Paragraph, Event.Text "a", Event.Start .BlockQuote] 0 .Paragraph
    = ([Event.Text "a", Event.Start .BlockQuote], 3) :=
  c4_unterminated_returns_partial_silently
    [Event.Start .Paragraph, Event.Text "a", Event.Start .BlockQuote] 0 .Paragraph .Paragraph
    rfl rfl (by decide)

/-! ### Claim C6 (headings carrying an id or classes) -/

/-- C6 counterexample: starting the scan at the id-carrying heading, the bare
probe does not match that heading — but it DOES match the later bare heading
of the same level, so the matcher collects that heading's inner events and
stops at its `End`, instead of collecting nothing and running off the end of
the slice; the id-carrying heading consequently renders with the LATER
heading's content, not with empty content. -/
theorem c6_later_bare_heading_counterexample :
    collect_until_end_with_index c6Events 0 (.Heading .h1 Option.none [])
      = ([Event.Text "y"], 5)
    ∧ collect_until_end_with_index c6Events 0 (.Heading .h1 Option.none [])
      ≠ ([], 6)
    ∧ render_markdown_events hl0 Option.none c6Events
      = [Node.el "h1" [("class", "markdown-heading-1")]
          [Node.el "span" [] [Node.text "y"]]] :=
  ⟨rfl, by decide, rfl⟩

/-- C6 amended: for a heading start carrying an id or a non-empty class list,
the bare probe (same level, no id, no classes) matches neither its `Start` nor
its `End`; and provided no event in the remainder of the slice matches the
bare probe either, the matcher collects nothing and returns the slice length,
so the heading renders with empty content and every subsequent event of the
slice is dropped. -/
theorem c6_decorated_heading_probe_mismatch
    (es : List Event) (s : Nat) (lvl : HeadingLevel)
    (hid : Option String) (hcls : List String)
    (hs : es.get? s = some (.Start (.Heading lvl hid hcls)))
    (hdec : hid ≠ Option.none ∨ hcls ≠ [])
    (hnm : ∀ e ∈ es.drop s,
      isMatchStart (.Heading lvl Option.none []) e = false
      ∧ isMatchEnd (.Heading lvl Option.none []) e = false) :
    tag_matches (.Heading lvl hid hcls) (.Heading lvl Option.none []) = false
    ∧ collect_until_end_with_index es s (.Heading lvl Option.none []) = ([], es.length)
    ∧ ∀ (hl : HL) (base : Option String) (f : Nat) (ct : String) (ih : Bool)
        (acc : List Node),
        renderGo hl base (f + 1) es s ct ih acc
        = flushText ct acc
          ++ [Node.el ("h" ++ toString lvl.toNat)
                [("class", "markdown-heading-" ++ toString lvl.toNat)] []] := by
  have hslen : s < es.length := length_lt_of_get? hs
  have htm : tag_matches (.Heading lvl hid hcls) (.Heading lvl Option.none []) = false := by
    rcases hdec with h | h <;> simp [tag_matches, h]
  have hcoll : collect_until_end_with_index es s (.Heading lvl Option.none [])
      = ([], es.length) := by
    rw [collect_until_end_with_index]
    rw [collectGo_no_match (.Heading lvl Option.none []) (es.drop s) s hnm]
    have : (es.drop s).length = es.length - s := List.length_drop _ _
    rw [this]
    congr 1
    omega
  refine ⟨htm, hcoll, ?_⟩
  intro hl base f ct ih acc
  simp only [renderGo, hs]
  rw [hcoll]
  rw [renderGo_nil hl base f false]
  exact renderGo_past_end hl base f es es.length ih _ (by omega)

/-- C6 witness: the amended theorem applied to a concrete slice containing
only one heading, which carries an id. -/
theorem c6_decorated_heading_witness :
    tag_matches (.Heading .h2 (some "x") []) (.Heading .h2 Option.none []) = false
    ∧ collect_until_end_with_index
        [Event.Start (.Heading .h2 (some "x") []), Event.Text "t",
         Event.End (.Heading .h2 (some "x") [])] 0 (.Heading .h2 Option.none [])
      = ([], 3)
    ∧ ∀ (hl : HL) (base : Option String) (f : Nat) (ct : String) (ih : Bool)
        (acc : List Node),
        renderGo hl base (f + 1)
          [Event.Start (.Heading .h2 (some "x") []), Event.Text "t",
           Event.End (.Heading .h2 (some "x") [])] 0 ct ih acc
        = flushText ct acc
          ++ [Node.el "h2" [("class", "markdown-heading-2")] []] :=
  c6_decorated_heading_probe_mismatch
    [Event.Start (.Heading .h2 (some "x") []), Event.Text "t",
     Event.End (.Heading .h2 (some "x") [])] 0 .h2 (some "x") []
    rfl (Or.inl (by decide)) (by decide)

/-! ### Claim C3 (text collection scans from index 0) -/

/-- At depth 0 the text scan skips any leading events that do not match the
probe. -/
lemma collectTextGo_zero_skip (probe : Tag) :
    ∀ (pre l : List Event),
      (∀ e ∈ pre, isMatchStart probe e = false ∧ isMatchEnd probe e = false) →
      collectTextGo probe (pre ++ l) 0 = collectTextGo probe l 0 := by
  intro pre
  induction pre with
  | nil => intro l _; rfl
  | cons e rest ih =>
    intro l h
    have he := h e (List.mem_cons_self e rest)
    have hrest : ∀ x ∈ rest, isMatchStart probe x = false ∧ isMatchEnd probe x = false :=
      fun x hx => h x (List.mem_cons_of_mem e hx)
    have hr := ih l hrest
    cases e with
    | Start t =>
      have hm : tag_matches t probe = false := by simpa [isMatchStart] using he.1
      simpa [collectTextGo, hm] using hr
    | End t =>
      have hm : tag_matches t probe = false := by simpa [isMatchEnd] using he.2
      simpa [collectTextGo, hm] using hr
    | Text s => simpa [collectTextGo] using hr
    | Code s => simpa [collectTextGo] using hr
    | Html s => simpa [collectTextGo] using hr
    | FootnoteReference s => simpa [collectTextGo] using hr
    | SoftBreak => simpa [collectTextGo] using hr
    | HardBreak => simpa [collectTextGo] using hr
    | Rule => simpa [collectTextGo] using hr
    | TaskListMarker c => simpa [collectTextGo] using hr

/-- At depth 1, over inner events that do not match the probe, the text scan
gathers exactly the flattened inner text, stopping at the matching `End` and
ignoring everything after it. -/
lemma collectTextGo_one (probe t1 : Tag) (post : List Event)
    (hm : tag_matches t1 probe = true) :
    ∀ (inner : List Event),
      (∀ e ∈ inner, isMatchStart probe e = false ∧ isMatchEnd probe e = false) →
      collectTextGo probe (inner ++ .End t1 :: post) 1 = innerTextFlat inner := by
  intro inner
  induction inner with
  | nil =>
    intro _
    simp [collectTextGo, hm, innerTextFlat]
  | cons e rest ih =>
    intro h
    have he := h e (List.mem_cons_self e rest)
    have hrest : ∀ x ∈ rest, isMatchStart probe x = false ∧ isMatchEnd probe x = false :=
      fun x hx => h x (List.mem_cons_of_mem e hx)
    have hr := ih hrest
    cases e with
    | Start t =>
      have hmf : tag_matches t probe = false := by simpa [isMatchStart] using he.1
      simpa [collectTextGo, hmf, innerTextFlat] using hr
    | End t =>
      have hmf : tag_matches t probe = false := by simpa [isMatchEnd] using he.2
      simpa [collectTextGo, hmf, innerTextFlat] using hr
    | Text s => simpa [collectTextGo, innerTextFlat] using congrArg (s ++ .) hr
    | Code s => simpa [collectTextGo, innerTextFlat] using congrArg (s ++ .) hr
    | Html s => simpa [collectTextGo, innerTextFlat] using hr
    | FootnoteReference s => simpa [collectTextGo, innerTextFlat] using hr
    | SoftBreak =>
      simpa [collectTextGo, innerTextFlat] using congrArg (("\n" : String) ++ .) hr
    | HardBreak =>
      simpa [collectTextGo, innerTextFlat] using congrArg (("\n\n" : String) ++ .) hr
    | Rule => simpa [collectTextGo, innerTextFlat] using hr
    | TaskListMarker c => simpa [collectTextGo, innerTextFlat] using hr

/-- C3: the text gathered for a code block's contents and an image's alt text
comes from `collect_text_until_end`, which scans from index 0 of the slice and
returns the inner text of the FIRST start tag matching the probe (first
conjunct, independent of everything after that span's `End`); consequently,
rendering a slice with two identical-kind code blocks (under an injective
oracle) or two identical images produces a second node EQUAL to the first —
the second block/image is rendered with the first one's text ("A"), not with
its own ("B"). -/
theorem c3_text_scan_starts_at_index_zero :
    (∀ (pre inner post : List Event) (t0 t1 probe : Tag),
      (∀ e ∈ pre, isMatchStart probe e = false ∧ isMatchEnd probe e = false) →
      tag_matches t0 probe = true →
      tag_matches t1 probe = true →
      (∀ e ∈ inner, isMatchStart probe e = false ∧ isMatchEnd probe e = false) →
      collect_text_until_end (pre ++ .Start t0 :: (inner ++ .End t1 :: post)) probe
        = innerTextFlat inner)
    ∧ (render_markdown_events hlInj Option.none twoCodeBlocks).length = 2
    ∧ (render_markdown_events hlInj Option.none twoCodeBlocks).get? 1
        = (render_markdown_events hlInj Option.none twoCodeBlocks).get? 0
    ∧ collect_text_until_end twoCodeBlocks (.CodeBlock (.fenced "rust")) = "A"
    ∧ (render_markdown_events hl0 Option.none twoImages).length = 2
    ∧ (render_markdown_events hl0 Option.none twoImages).get? 1
        = (render_markdown_events hl0 Option.none twoImages).get? 0
    ∧ collect_text_until_end twoImages (.Image .inline "u" "t") = "A" := by
  refine ⟨?_, rfl, rfl, rfl, rfl, rfl, rfl⟩
  intro pre inner post t0 t1 probe hpre hm0 hm1 hin
  rw [collect_text_until_end]
  rw [collectTextGo_zero_skip probe pre _ hpre]
  show collectTextGo probe (.Start t0 :: (inner ++ .End t1 :: post)) 0 = innerTextFlat inner
  simp only [collectTextGo, hm0, if_true]
  norm_num
  exact collectTextGo_one probe t1 post hm1 inner hin

/-- C3 witness: the general first-match property applied to a concrete
single-block slice. -/
theorem c3_text_scan_witness :
    collect_text_until_end
      [Event.Start (.CodeBlock (.fenced "rust")), Event.Text "hi",
       Event.End (.CodeBlock (.fenced "rust"))] (.CodeBlock (.fenced "rust"))
    = innerTextFlat [Event.Text "hi"] :=
  c3_text_scan_starts_at_index_zero.1 [] [Event.Text "hi"] []
    (.CodeBlock (.fenced "rust")) (.CodeBlock (.fenced "rust"))
    (.CodeBlock (.fenced "rust"))
    (by decide) rfl rfl (by decide)

/-! ### Claim C5 (task item detection) -/

/-- C5 counterexample: the item's first TEXT event is "[x] a", whose first
four characters are exactly "[x] " — yet task-item rendering does not fire,
because the detector only inspects the event immediately following
`Start(Item)`, which here is `Start(Paragraph)`. The item renders as a plain
list item with the marker left in the text and no checkbox is synthesized. -/
theorem c5_loose_item_counterexample :
    render_markdown_events hl0 Option.none c5LooseItem
      = [Node.el "ul" [("class", "markdown-list")]
          [Node.el "li" [("class", "markdown-list-item")]
            [Node.el "p" [("class", "markdown-paragraph")]
              [Node.el "span" [] [Node.text "[x] a"]]]]]
    ∧ isTaskMarkerText "[x] a" = true :=
  ⟨rfl, rfl⟩

/-- C5 amended: task-item rendering fires iff the event immediately following
the item's `Start` is a `Text` whose first four characters are exactly one of
"[ ] ", "[x] ", "[X] ". When it fires, the 4-character prefix is stripped from
that text, the synthesized checkbox's checked flag is set iff the marker was
"[x] " or "[X] ", and the remaining content renders as the checkbox's sibling
(inside the task item node); otherwise the item renders as a plain list item. -/
theorem c5_task_detection_next_event_only :
    (∀ (hl : HL) (base : Option String) (f : Nat) (es : List Event) (i : Nat)
        (ct : String) (ih : Bool) (acc : List Node) (txt : String),
      es.get? i = some (.Start .Item) →
      es.get? (i + 1) = some (.Text txt) →
      isTaskMarkerText txt = true →
      renderGo hl base (f + 1) es i ct ih acc
        = renderGo hl base f es (collect_until_end_with_index es i .Item).2 "" ih
            (flushText ct acc
              ++ [taskItemNode
                    (strStartsWith txt "[x] " || strStartsWith txt "[X] ")
                    (renderGo hl base f
                      (.Text (strDrop 4 txt)
                        :: (collect_until_end_with_index es i .Item).1.tail)
                      0 "" false [])]))
    ∧ (∀ (hl : HL) (base : Option String) (f : Nat) (es : List Event) (i : Nat)
        (ct : String) (ih : Bool) (acc : List Node),
      es.get? i = some (.Start .Item) →
      (∀ txt, es.get? (i + 1) = some (.Text txt) → isTaskMarkerText txt = false) →
      renderGo hl base (f + 1) es i ct ih acc
        = renderGo hl base f es (collect_until_end_with_index es i .Item).2 "" ih
            (flushText ct acc
              ++ [Node.el "li" [("class", "markdown-list-item")]
                    (renderGo hl base f
                      (collect_until_end_with_index es i .Item).1 0 "" false [])])) := by
  constructor
  · intro hl base f es i ct ih acc txt h0 h1 h2
    have hdrop0 : es.drop i = .Start .Item :: es.drop (i + 1) := drop_eq_cons_of_get? h0
    have hdrop1 : es.drop (i + 1) = .Text txt :: es.drop (i + 2) := drop_eq_cons_of_get? h1
    have hr : collect_until_end_with_index es i .Item
        = (.Text txt :: (collectGo .Item (es.drop (i + 2)) (i + 2) 1).1,
           (collectGo .Item (es.drop (i + 2)) (i + 2) 1).2) := by
      have htm : tag_matches Tag.Item Tag.Item = true := rfl
      rw [collect_until_end_with_index, hdrop0, hdrop1]
      simp [collectGo, htm]
    simp only [renderGo, h0, h1, h2, hr]
    simp
  · intro hl base f es i ct ih acc h0 h2
    have hfalse : (match es.get? (i + 1) with
        | some (.Text t) => isTaskMarkerText t
        | _ => false) = false := by
      cases hev : es.get? (i + 1) with
      | none => rfl
      | some ev =>
        cases ev with
        | Text t => exact h2 t hev
        | Start tag => rfl
        | End tag => rfl
        | Code s => rfl
        | Html s => rfl
        | FootnoteReference s => rfl
        | SoftBreak => rfl
        | HardBreak => rfl
        | Rule => rfl
        | TaskListMarker c => rfl
    simp only [renderGo, h0, hfalse]
    simp

/-- C5 witness: both directions of the amended theorem applied to concrete
items — one with a marker text directly after `Start(Item)` (the checkbox is
synthesized, checked, with the prefix stripped), one with plain text (a plain
list item). -/
theorem c5_task_detection_witness :
    renderGo hl0 Option.none 6 [Event.Start .Item, Event.Text "[x] ok", Event.End .Item]
        0 "" false []
      = [taskItemNode true [Node.el "span" [] [Node.text "ok"]]]
    ∧ renderGo hl0 Option.none 6 [Event.Start .Item, Event.Text "plain", Event.End .Item]
        0 "" false []
      = [Node.el "li" [("class", "markdown-list-item")]
          [Node.el "span" [] [Node.text "plain"]]] := by
  constructor
  · exact (c5_task_detection_next_event_only.1 hl0 Option.none 5
      [Event.Start .Item, Event.Text "[x] ok", Event.End .Item] 0 "" false [] "[x] ok"
      rfl rfl rfl).trans (by rfl)
  · refine (c5_task_detection_next_event_only.2 hl0 Option.none 5
      [Event.Start .Item, Event.Text "plain", Event.End .Item] 0 "" false []
      rfl ?_).trans (by rfl)
    intro txt h
    have : txt = "plain" := by
      simp [List.get?] at h
      exact h.symm
    subst this
    decide

/-! ### Claim C7 (break events) -/

/-- C7 counterexample: rendering `[Text "a", SoftBreak, Text "b"]` yields a
SINGLE span containing "a b": the soft break neither flushed the pending text
"a" nor emitted any leaf node of its own — it merely appended a space to the
pending buffer. -/
theorem c7_soft_break_counterexample :
    render_markdown_events hl0 Option.none
      [Event.Text "a", Event.SoftBreak, Event.Text "b"]
      = [Node.el "span" [] [Node.text "a b"]]
    ∧ (render_markdown_events hl0 Option.none
        [Event.Text "a", Event.SoftBreak, Event.Text "b"]).length = 1 :=
  ⟨rfl, rfl⟩

/-- C7 amended: `HardBreak` first flushes any pending text into a text node
and then emits a `br` leaf of its own; `SoftBreak` emits nothing — it appends
a single space to the pending text buffer. -/
theorem c7_hard_break_flushes_soft_break_accumulates :
    (∀ (hl : HL) (base : Option String) (f : Nat) (es : List Event) (i : Nat)
        (ct : String) (ih : Bool) (acc : List Node),
      es.get? i = some .HardBreak →
      renderGo hl base (f + 1) es i ct ih acc
        = renderGo hl base f es (i + 1) "" ih
            (flushText ct acc ++ [Node.el "br" [] []]))
    ∧ (∀ (hl : HL) (base : Option String) (f : Nat) (es : List Event) (i : Nat)
        (ct : String) (ih : Bool) (acc : List Node),
      es.get? i = some .SoftBreak →
      renderGo hl base (f + 1) es i ct ih acc
        = renderGo hl base f es (i + 1) (ct.push ' ') ih acc) := by
  constructor
  · intro hl base f es i ct ih acc h
    simp only [renderGo, h]
  · intro hl base f es i ct ih acc h
    simp only [renderGo, h]

/-- C7 witness: both arms of the amended theorem applied at concrete states
with pending text "x". -/
theorem c7_break_witness :
    renderGo hl0 Option.none 3 [Event.HardBreak] 0 "x" false []
      = renderGo hl0 Option.none 2 [Event.HardBreak] 1 "" false
          (flushText "x" [] ++ [Node.el "br" [] []])
    ∧ renderGo hl0 Option.none 3 [Event.SoftBreak] 0 "x" false []
      = renderGo hl0 Option.none 2 [Event.SoftBreak] 1 "x " false [] :=
  ⟨c7_hard_break_flushes_soft_break_accumulates.1 hl0 Option.none 2
      [Event.HardBreak] 0 "x" false [] rfl,
   c7_hard_break_flushes_soft_break_accumulates.2 hl0 Option.none 2
      [Event.SoftBreak] 0 "x" false [] rfl⟩

/-! ### Claim C1 (table head / cell roles) -/

/-- C1: evaluating the renderer at scenario C. Contrary to the claim, BOTH
cells render with the data role (`td`, class `markdown-table-cell`): the
`in_table_head` flag is a local of each `render_markdown_events` invocation,
and the cells inside the `TableHead` subtree are rendered by recursive
invocations whose flag is freshly initialized to `false`, so the header
branch (`th`) is unreachable. The cell containing "Name" does NOT render with
the header role. -/
theorem c1_table_head_cell_renders_data_role :
    render_markdown_events hl0 Option.none scenarioC
    = [Node.el "table" [("class", "markdown-table")]
        [Node.el "thead" []
          [Node.el "tr" []
            [Node.el "td" [("class", "markdown-table-cell")]
              [Node.el "span" [] [Node.text "Name"]]]],
         Node.el "tr" []
          [Node.el "td" [("class", "markdown-table-cell")]
            [Node.el "span" [] [Node.text "Alice"]]]]] := rfl

/-! ### Claim C8 (span classification determinism) -/

/-- C8 counterexample: classification is NOT a function of (color, style,
text) alone. The off-palette, non-italic span "function" is classified
`keyword` under the `js` language token but `text` under `css` — the
language-specific heuristic fallback reads the language. -/
theorem c8_language_dependence_counterexample :
    classifySpan "js" false (0, 0, 0) "function" = "keyword"
    ∧ classifySpan "css" false (0, 0, 0) "function" = "text"
    ∧ classifySpan "js" false (0, 0, 0) "function"
        ≠ classifySpan "css" false (0, 0, 0) "function" :=
  ⟨rfl, rfl, by decide⟩

/-- C8 amended: classification is deterministic in (color, style, text) and
the normalized language token; the language is irrelevant exactly on the
italic-style path and on exact palette hits. -/
theorem c8_palette_classes_language_independent
    (italic : Bool) (fg : Nat × Nat × Nat) (text : String)
    (h : italic = true ∨ paletteHit fg = true) :
    ∀ l1 l2 : String, classifySpan l1 italic fg text = classifySpan l2 italic fg text := by
  intro l1 l2
  rcases h with h | h
  · subst h; rfl
  · cases italic with
    | true => rfl
    | false =>
      cases hp : paletteClass fg with
      | none => rw [paletteHit, hp] at h; simp at h
      | some c => simp [classifySpan, hp]

/-- C8 witness: the amended theorem applied at an italic span. -/
theorem c8_palette_witness :
    classifySpan "js" true (0, 0, 0) "x" = classifySpan "css" true (0, 0, 0) "x" :=
  c8_palette_classes_language_independent true (0, 0, 0) "x" (Or.inl rfl) "js" "css"

/-! ### Claim C9 (image URL resolution) -/

/-- C9: the source's image URL rewriting coincides with the spec's description
case by case, including the double-segment artifact for relative urls with a
leading slash, and the pass-through when no base path is configured. -/
theorem c9_image_url_resolution :
    (∀ (base : Option String) (url : String),
      resolveImageUrl base url = resolveImageUrlSpec base url)
    ∧ resolveImageUrl (some "/assets/images") "/abs/x.png" = "/assets/images/abs/x.png"
    ∧ resolveImageUrl (some "/assets/images") "img/x.png" = "/assets/images/img/x.png"
    ∧ resolveImageUrl (some "/assets/images") "https://cdn.example.com/x.png"
        = "https://cdn.example.com/x.png"
    ∧ resolveImageUrl (some "/assets/images") "http://cdn.example.com/x.png"
        = "http://cdn.example.com/x.png"
    ∧ (∀ url, resolveImageUrl Option.none url = url) := by
  refine ⟨?_, rfl, rfl, rfl, rfl, fun _ => rfl⟩
  intro base url
  cases base with
  | none => rfl
  | some b =>
    simp only [resolveImageUrl, resolveImageUrlSpec]
    cases h1 : strStartsWith url "http://" <;>
      cases h2 : strStartsWith url "https://" <;>
        simp [h1, h2]

/-! ### Claim C10 (scroll heuristic) -/

set_option maxRecDepth 4000 in
/-- C10: `needs_scroll` is true iff the maximum line length exceeds 80 or the
line count exceeds 15; the three concrete blocks of the spec behave as
claimed. -/
theorem c10_needs_scroll_iff :
    (∀ s : String, needsScroll s = true ↔ (maxLineLength s > 80 ∨ lineCount s > 15))
    ∧ needsScroll line90 = true
    ∧ needsScroll sixteenLines = true
    ∧ needsScroll tenLinesOf40 = false := by
  refine ⟨?_, by decide, by decide, by decide⟩
  intro s
  simp [needsScroll]

example :
    collect_until_end_with_index
      [Event.Start .BlockQuote, Event.Start .BlockQuote, Event.Text "x",
       Event.End .BlockQuote, Event.End .BlockQuote] 0 .BlockQuote
    = ([Event.Start .BlockQuote, Event.Text "x", Event.End .BlockQuote], 4) := rfl

example :
    collect_text_until_end
      [Event.Start (.CodeBlock (.fenced "rust")), Event.Text "a", Event.SoftBreak,
       Event.End (.CodeBlock (.fenced "rust"))] (.CodeBlock (.fenced "rust"))
    = "a\n" := rfl

end BananabitCms
